import Mathlib

/-!
Verification development for the BCMS complaint-management repository.

The data model and operations below are shallow embeddings of the SQL
schema / row-level-security policies (migration file) and of the handler
functions in the dashboard pages (`AdminDashboard.tsx`, `StudentDashboard`,
`ComplaintDetail`).  Identifiers follow the source names where possible.
-/

namespace BCMS

/-- `app_role` enum from the schema. -/
inductive Role where
  | student
  | staff
  | admin
deriving DecidableEq

/-- `complaint_status` enum from the schema. -/
inductive Status where
  | pending
  | in_progress
  | resolved
deriving DecidableEq

/-- `complaint_category` enum from the schema. -/
inductive Category where
  | academic
  | infrastructure
  | administrative
  | technical
  | other
deriving DecidableEq

/-- A row of the `complaints` table.  `created_at` is a timestamp in
milliseconds since the epoch; `assigned_to` is nullable. -/
structure Complaint where
  id : Nat
  student_id : Nat
  title : String
  description : String
  category : Category
  status : Status
  assigned_to : Option Nat
  created_at : Int
deriving DecidableEq

/-- A row of the `comments` table. -/
structure Comment where
  id : Nat
  complaint_id : Nat
  user_id : Nat
  message : String
  created_at : Int
deriving DecidableEq

/-- A row of the `user_roles` table: `(user_id, role)`. -/
abbrev RoleRow := Nat × Role

/-- `public.has_role(_user_id, _role)`: true iff a `user_roles` row with
this user id and role exists. -/
def has_role (roles : List RoleRow) (u : Nat) (r : Role) : Bool :=
  roles.any (fun row => row.1 == u && row.2 == r)

/-- Complaint SELECT access: the `USING` clause of the policy
"Students can view own complaints" (the only other SELECT-applicable
policy, "Admins can manage all complaints", adds the already-present
admin disjunct). -/
def canRead (roles : List RoleRow) (uid : Nat) (c : Complaint) : Bool :=
  uid == c.student_id ||
  has_role roles uid Role.staff ||
  has_role roles uid Role.admin

/-- Complaint UPDATE access: the `USING` clause of
"Staff can update assigned complaints" OR-ed with
"Admins can manage all complaints". -/
def canUpdate (roles : List RoleRow) (uid : Nat) (c : Complaint) : Bool :=
  (has_role roles uid Role.staff && c.assigned_to == some uid) ||
  has_role roles uid Role.admin

/-- Complaint INSERT access: the `WITH CHECK` clause of
"Students can create complaints". -/
def canInsert (uid : Nat) (c : Complaint) : Bool :=
  uid == c.student_id

/-- Comment SELECT access: the `USING` clause of
"Users can view comments on accessible complaints" — an `EXISTS` over the
`complaints` table for the comment's parent complaint. -/
def canReadComment (roles : List RoleRow) (uid : Nat)
    (complaints : List Complaint) (m : Comment) : Bool :=
  complaints.any (fun c =>
    c.id == m.complaint_id &&
      (c.student_id == uid ||
       c.assigned_to == some uid ||
       has_role roles uid Role.admin))

/-- The row-level effect of `handleAssignStaff`'s
`update { assigned_to: staffId, status: "in_progress" } ... eq("id", complaintId)`. -/
def assignStaffRow (c : Complaint) (complaintId staffId : Nat) : Complaint :=
  if c.id == complaintId then
    { c with assigned_to := some staffId, status := Status.in_progress }
  else c

/-- `handleAssignStaff` from `AdminDashboard.tsx`, as a table update. -/
def handleAssignStaff (complaints : List Complaint) (complaintId staffId : Nat) :
    List Complaint :=
  complaints.map (fun c => assignStaffRow c complaintId staffId)

/-- The row-level effect of `handleStatusUpdate`'s
`update { status: newStatus } ... eq("id", id)`. -/
def statusUpdateRow (c : Complaint) (complaintId : Nat) (newStatus : Status) :
    Complaint :=
  if c.id == complaintId then { c with status := newStatus } else c

/-- `handleStatusUpdate` from the complaint-detail page, as a table update. -/
def handleStatusUpdate (complaints : List Complaint) (complaintId : Nat)
    (newStatus : Status) : List Complaint :=
  complaints.map (fun c => statusUpdateRow c complaintId newStatus)

/-- The row inserted by `handleSubmitComplaint`: status `pending`, and
`assigned_to` defaults to null per the schema. -/
def newComplaint (cid studentId : Nat) (t d : String) (cat : Category)
    (createdAt : Int) : Complaint :=
  { id := cid, student_id := studentId, title := t, description := d,
    category := cat, status := Status.pending, assigned_to := none,
    created_at := createdAt }

/-- `handlePromoteToStaff`: `update user_roles set role = 'staff'
where user_id = userId`. -/
def handlePromoteToStaff (rows : List RoleRow) (userId : Nat) : List RoleRow :=
  rows.map (fun row => if row.1 == userId then (row.1, Role.staff) else row)

/-- `handleDemoteToStudent`: `update user_roles set role = 'student'
where user_id = userId`. -/
def handleDemoteToStudent (rows : List RoleRow) (userId : Nat) : List RoleRow :=
  rows.map (fun row => if row.1 == userId then (row.1, Role.student) else row)

/-- The two admin role-management operations. -/
inductive RoleOp where
  | promote (userId : Nat)
  | demote (userId : Nat)

/-- Apply one role-management operation to the `user_roles` table. -/
def applyRoleOp (rows : List RoleRow) : RoleOp → List RoleRow
  | RoleOp.promote u => handlePromoteToStaff rows u
  | RoleOp.demote u => handleDemoteToStudent rows u

/-- Apply a sequence of role-management operations. -/
def applyRoleOps (rows : List RoleRow) (ops : List RoleOp) : List RoleRow :=
  ops.foldl applyRoleOp rows

/-- Number of `user_roles` rows belonging to user `u`. -/
def roleRowCount (rows : List RoleRow) (u : Nat) : Nat :=
  (rows.filter (fun row => row.1 == u)).length

/-- Milliseconds per calendar day. -/
def msPerDay : Int := 86400000

/-- Calendar day of a complaint's `created_at` (the code buckets by the
`YYYY-MM-DD` prefix of the timestamp string; on the millisecond timeline
that is flooring division by the day length). -/
def createdDay (c : Complaint) : Int := c.created_at / msPerDay

/-- `last7DaysData` from `AdminDashboard.tsx`: for `i = 0..6` the bucket
for day `today - (6 - i)`, whose value is the number of complaints created
on that calendar day. -/
def last7DaysData (todayDay : Int) (complaints : List Complaint) : List Nat :=
  (List.range 7).map (fun (i : Nat) =>
    (complaints.filter
      (fun c => createdDay c == todayDay - (6 - (i : Int)))).length)

/-- The predicate of `overdueComplaints`: pending, unassigned, created
strictly before three days ago. -/
def isOverdue (now : Int) (c : Complaint) : Bool :=
  c.status == Status.pending &&
  c.assigned_to.isNone &&
  decide (c.created_at < now - 3 * msPerDay)

/-- `overdueComplaints` from `AdminDashboard.tsx`. -/
def overdueComplaints (now : Int) (complaints : List Complaint) :
    List Complaint :=
  complaints.filter (isOverdue now)

/-- The "newest" comparator `(a, b) => Date(b) - Date(a)` as the total
Boolean preorder used by the stable sort: `a` may precede `b` iff the
comparator is `≤ 0`, i.e. `b.created_at ≤ a.created_at`. -/
def newestLe (a b : Complaint) : Bool :=
  decide (b.created_at ≤ a.created_at)

/-- `sortedComplaints` with `sortBy = "newest"`: a stable sort (JS
`Array.prototype.sort` is specified stable) by the "newest" comparator. -/
def sortByNewest (complaints : List Complaint) : List Complaint :=
  complaints.mergeSort newestLe

/-- The in-place increment `existing.value++` of `categoryData`'s reduce:
bump the first entry whose name matches. -/
def bumpCategory : List (Category × Nat) → Category → List (Category × Nat)
  | [], _ => []
  | e :: rest, cat =>
    if e.1 == cat then (e.1, e.2 + 1) :: rest else e :: bumpCategory rest cat

/-- One step of `categoryData`'s reduce: increment the existing entry if
`acc.find` succeeds, otherwise append a fresh `{name, value: 1}` entry. -/
def categoryStep (acc : List (Category × Nat)) (c : Complaint) :
    List (Category × Nat) :=
  if acc.any (fun e => e.1 == c.category) then bumpCategory acc c.category
  else acc ++ [(c.category, 1)]

/-- `categoryData` from `AdminDashboard.tsx`. -/
def categoryData (complaints : List Complaint) : List (Category × Nat) :=
  complaints.foldl categoryStep []

/-- Spec-side description for comparison: the distinct categories of the
input in order of first occurrence. -/
def firstOccurrenceOrder (l : List Category) : List Category :=
  l.foldl (fun ns x => if x ∈ ns then ns else ns ++ [x]) []

/-- A complaint whose assignee (principal 2) is neither its owner nor a
staff/admin role holder; used to refute the assignee-read disjunct. -/
def assigneeOnlyComplaint : Complaint :=
  { id := 0, student_id := 1, title := "t", description := "d",
    category := Category.other, status := Status.pending,
    assigned_to := some 2, created_at := 0 }

/-- C1 counterexample: with an empty `user_roles` table, principal 2 is the
assignee of `assigneeOnlyComplaint` but is not its owner and holds no
role, and `canRead` denies — so the claimed four-disjunct biconditional
(owner ∨ assignee ∨ staff ∨ admin) is false at this instance: the
assignee disjunct does not grant read access once staff role is lost. -/
theorem canRead_assignee_counterexample :
    ¬ (canRead [] 2 assigneeOnlyComplaint = true ↔
        (2 = assigneeOnlyComplaint.student_id ∨
         assigneeOnlyComplaint.assigned_to = some 2 ∨
         has_role [] 2 Role.staff = true ∨
         has_role [] 2 Role.admin = true)) := by
  decide

/-- C1 (amended): for every principal and complaint, complaint read is
granted iff the principal is the owner, or holds the staff role, or holds
the admin role — the complaint SELECT policy has no assignee disjunct. -/
theorem canRead_policy (roles : List RoleRow) (uid : Nat) (c : Complaint) :
    canRead roles uid c = true ↔
      (uid = c.student_id ∨
       has_role roles uid Role.staff = true ∨
       has_role roles uid Role.admin = true) := by
  simp [canRead, or_assoc]

/-- A resolved complaint assigned to staff id 5; used to show assignment
alters status. -/
def resolvedAssignedComplaint : Complaint :=
  { id := 0, student_id := 1, title := "t", description := "d",
    category := Category.other, status := Status.resolved,
    assigned_to := some 5, created_at := 0 }

/-- C2 counterexample: re-assigning a resolved complaint (assigned to 5)
to staff id 6 via `handleAssignStaff` alters its status — the update sets
`status` to `in_progress` unconditionally, so status was `resolved` before
and `in_progress` after. -/
theorem reassign_alters_status_counterexample :
    (handleAssignStaff [resolvedAssignedComplaint] 0 6).map (·.status)
        = [Status.in_progress] ∧
    resolvedAssignedComplaint.status = Status.resolved := by
  decide

/-- C2 (amended): every assignment (including re-assignment from one staff
id to another) writes `assigned_to` and sets `status` to `in_progress` in
the same statement; status is never reset to `pending`, and it is left
unchanged exactly when it already was `in_progress`. -/
theorem reassign_status_effect (c : Complaint) (a b : Nat)
    (_h : c.assigned_to = some a) :
    (assignStaffRow c c.id b).assigned_to = some b ∧
    (assignStaffRow c c.id b).status = Status.in_progress ∧
    ((assignStaffRow c c.id b).status = c.status ↔
      c.status = Status.in_progress) := by
  simp [assignStaffRow]
  exact eq_comm

/-- Witness for `reassign_status_effect` at the resolved complaint
assigned to 5, re-assigned to 6. -/
theorem reassign_status_effect_witness :
    (assignStaffRow resolvedAssignedComplaint resolvedAssignedComplaint.id 6).assigned_to = some 6 ∧
    (assignStaffRow resolvedAssignedComplaint resolvedAssignedComplaint.id 6).status = Status.in_progress ∧
    ((assignStaffRow resolvedAssignedComplaint resolvedAssignedComplaint.id 6).status
        = resolvedAssignedComplaint.status ↔
      resolvedAssignedComplaint.status = Status.in_progress) :=
  reassign_status_effect resolvedAssignedComplaint 5 6 rfl

/-- C3: complaint update is granted iff the principal holds staff and is
the current assignee, or holds admin; in particular a staff principal who
is not the assignee (and not an admin) cannot update. -/
theorem canUpdate_policy (roles : List RoleRow) (uid : Nat) (c : Complaint) :
    (canUpdate roles uid c = true ↔
      ((has_role roles uid Role.staff = true ∧ c.assigned_to = some uid) ∨
        has_role roles uid Role.admin = true)) ∧
    (has_role roles uid Role.staff = true →
      has_role roles uid Role.admin = false →
      c.assigned_to ≠ some uid →
      canUpdate roles uid c = false) := by
  constructor
  · simp [canUpdate]
  · intro hs ha hne
    simp [canUpdate, hs, ha, hne]

/-- Witness for `canUpdate_policy`: staff principal 7 is not the assignee
(assignee is 8) and not an admin, hence denied. -/
theorem canUpdate_policy_witness :
    canUpdate [(7, Role.staff)] 7
        { id := 0, student_id := 1, title := "t", description := "d",
          category := Category.other, status := Status.pending,
          assigned_to := some 8, created_at := 0 } = false :=
  (canUpdate_policy [(7, Role.staff)] 7 _).2 (by decide) (by decide) (by decide)

/-- C4: comment read on a comment whose parent complaint is `c` is granted
iff the principal is the complaint's owner, or its current assignee, or
holds the admin role; and a staff principal who is none of these is denied
comment read even though complaint read is granted to all staff. -/
theorem canReadComment_policy (roles : List RoleRow) (uid : Nat)
    (c : Complaint) (m : Comment) (hm : m.complaint_id = c.id) :
    (canReadComment roles uid [c] m = true ↔
      (c.student_id = uid ∨ c.assigned_to = some uid ∨
        has_role roles uid Role.admin = true)) ∧
    (has_role roles uid Role.staff = true →
      has_role roles uid Role.admin = false →
      c.student_id ≠ uid →
      c.assigned_to ≠ some uid →
      canReadComment roles uid [c] m = false ∧ canRead roles uid c = true) := by
  have hiff : canReadComment roles uid [c] m = true ↔
      (c.student_id = uid ∨ c.assigned_to = some uid ∨
        has_role roles uid Role.admin = true) := by
    simp [canReadComment, hm, or_assoc]
  refine ⟨hiff, fun hs ha ho hne => ⟨?_, ?_⟩⟩
  · cases hcr : canReadComment roles uid [c] m with
    | false => rfl
    | true =>
      rcases hiff.mp hcr with h | h | h
      · exact absurd h ho
      · exact absurd h hne
      · rw [ha] at h
        exact absurd h (by simp)
  · simp [canRead, hs]

/-- Witness for `canReadComment_policy`: principal 3 holds staff, is not
admin, does not own the complaint (owner 1) and is not the assignee
(assignee 2), so comment read is denied while complaint read succeeds. -/
theorem canReadComment_policy_witness :
    (canReadComment [(3, Role.staff)] 3 [assigneeOnlyComplaint]
        { id := 0, complaint_id := 0, user_id := 1, message := "m",
          created_at := 0 } = false) ∧
    canRead [(3, Role.staff)] 3 assigneeOnlyComplaint = true :=
  (canReadComment_policy [(3, Role.staff)] 3 assigneeOnlyComplaint
      { id := 0, complaint_id := 0, user_id := 1, message := "m",
        created_at := 0 } rfl).2
    (by decide) (by decide) (by decide) (by decide)

/-- Updating a role row's role value never changes which user it belongs
to, so per-user row counts are invariant under one promote/demote. -/
theorem roleRowCount_applyRoleOp (rows : List RoleRow) (op : RoleOp)
    (u : Nat) : roleRowCount (applyRoleOp rows op) u = roleRowCount rows u := by
  have key : ∀ (tgt : Nat) (r : Role),
      roleRowCount (rows.map
        (fun row => if row.1 == tgt then (row.1, r) else row)) u
        = roleRowCount rows u := by
    intro tgt r
    have hf : ∀ row : RoleRow,
        ((if row.1 == tgt then (row.1, r) else row).1 == u) = (row.1 == u) := by
      intro row; split <;> rfl
    unfold roleRowCount
    rw [List.filter_map, List.length_map]
    congr 1
    exact List.filter_congr (fun a _ => hf a)
  cases op with
  | promote tgt => exact key tgt Role.staff
  | demote tgt => exact key tgt Role.student

/-- C5: if user `u` starts with exactly one role row, then after any finite
sequence of promote-to-staff / demote-to-student operations `u` still has
exactly one role row. -/
theorem role_uniqueness (ops : List RoleOp) (rows : List RoleRow) (u : Nat)
    (h : roleRowCount rows u = 1) :
    roleRowCount (applyRoleOps rows ops) u = 1 := by
  induction ops generalizing rows with
  | nil => exact h
  | cons op rest ih =>
    have : roleRowCount (applyRoleOp rows op) u = 1 := by
      rw [roleRowCount_applyRoleOp]; exact h
    exact ih (applyRoleOp rows op) this

/-- Witness for `role_uniqueness`: user 0 starts as a student with one
role row, is promoted then demoted, and ends with one role row. -/
theorem role_uniqueness_witness :
    roleRowCount
      (applyRoleOps [(0, Role.student)] [RoleOp.promote 0, RoleOp.demote 0])
      0 = 1 :=
  role_uniqueness [RoleOp.promote 0, RoleOp.demote 0] [(0, Role.student)] 0
    (by decide)

/-- C6: a permitted trace reaches `status = resolved` with
`assigned_to = null`.  Student 1 may insert the fresh complaint (id 42,
pending, unassigned); admin 9 is authorized to update it; a direct status
update to `resolved` then yields a complaint that is simultaneously
resolved and unassigned — no invariant couples status to assignment. -/
theorem resolved_unassigned_reachable :
    canInsert 1 (newComplaint 42 1 "t" "d" Category.other 0) = true ∧
    canUpdate [(1, Role.student), (9, Role.admin)] 9
      (newComplaint 42 1 "t" "d" Category.other 0) = true ∧
    handleStatusUpdate [newComplaint 42 1 "t" "d" Category.other 0] 42
        Status.resolved
      = [{ id := 42, student_id := 1, title := "t", description := "d",
           category := Category.other, status := Status.resolved,
           assigned_to := none, created_at := 0 }] := by
  decide

/-- A probe complaint created on calendar day `d`. -/
def dayComplaint (d : Int) : Complaint :=
  { id := 0, student_id := 0, title := "t", description := "d",
    category := Category.other, status := Status.pending,
    assigned_to := none, created_at := d * msPerDay }

/-- A probe complaint created on day `d` lands in calendar day `d`. -/
theorem createdDay_dayComplaint (d : Int) : createdDay (dayComplaint d) = d := by
  unfold createdDay dayComplaint msPerDay
  exact Int.mul_ediv_cancel d (by norm_num)

/-- C7: the 7-day trailing histogram always has exactly seven buckets, and
for complaints created on days `{T, T, T-2, T-6}` it yields
`[T-6:1, T-5:0, T-4:0, T-3:0, T-2:1, T-1:0, T-0:2]` — empty days appear as
zero buckets rather than being omitted. -/
theorem last7DaysData_histogram (t : Int) (cs : List Complaint) :
    (last7DaysData t cs).length = 7 ∧
    last7DaysData t
        [dayComplaint t, dayComplaint t, dayComplaint (t - 2),
         dayComplaint (t - 6)]
      = [1, 0, 0, 0, 1, 0, 2] := by
  have hsub : ∀ a b : Int, (t - a == t - b) = (a == b) := by
    intro a b
    by_cases hab : a = b
    · subst hab; simp
    · have h : t - a ≠ t - b := by omega
      have h2 : (a == b) = false := by simp [hab]
      simp [h, h2]
  have hself : ∀ b : Int, (t == t - b) = (0 == b) := by
    intro b
    have := hsub 0 b
    simpa using this
  have hself2 : ∀ a : Int, (t - a == t) = (a == 0) := by
    intro a
    have h := hsub a 0
    rw [sub_zero] at h
    exact h
  have hr : List.range 7 = [0, 1, 2, 3, 4, 5, 6] := rfl
  constructor
  · unfold last7DaysData
    rw [List.length_map, List.length_range]
  · simp only [last7DaysData, hr, List.map_cons, List.map_nil]
    norm_num [List.filter, createdDay_dayComplaint, hsub, hself, hself2]
    simp

/-- A probe pending, unassigned complaint created at time `ts`. -/
def pendingUnassigned (ts : Int) : Complaint :=
  { id := 0, student_id := 0, title := "t", description := "d",
    category := Category.other, status := Status.pending,
    assigned_to := none, created_at := ts }

/-- C8: a complaint is overdue iff it is pending, unassigned, and created
strictly before `now` minus 3 days; a pending unassigned complaint created
4 days ago is in the overdue set and one created 2 days ago is not. -/
theorem overdue_characterization (now : Int) (c : Complaint) :
    (isOverdue now c = true ↔
      (c.status = Status.pending ∧ c.assigned_to = none ∧
        c.created_at < now - 3 * msPerDay)) ∧
    overdueComplaints now [pendingUnassigned (now - 4 * msPerDay)]
      = [pendingUnassigned (now - 4 * msPerDay)] ∧
    overdueComplaints now [pendingUnassigned (now - 2 * msPerDay)] = [] := by
  refine ⟨?_, ?_, ?_⟩
  · simp [isOverdue, Option.isNone_iff_eq_none, and_assoc]
  · have h : now - 4 * msPerDay < now - 3 * msPerDay := by
      unfold msPerDay; omega
    simp [overdueComplaints, isOverdue, pendingUnassigned, h]
  · have h : ¬ (now - 2 * msPerDay < now - 3 * msPerDay) := by
      unfold msPerDay; omega
    simp [overdueComplaints, isOverdue, pendingUnassigned, h]

/-- A probe complaint with a chosen id and creation time. -/
def probeComplaint (n : Nat) (ts : Int) : Complaint :=
  { id := n, student_id := 0, title := "t", description := "d",
    category := Category.other, status := Status.pending,
    assigned_to := none, created_at := ts }

/-- C9: the "newest" sort is stable — a tied pair (equal `created_at`)
that occurs as a sublist of the input still occurs in that order in the
output — and sorting a list that is already in newest-first order yields
the identical sequence. -/
theorem sortByNewest_spec (cs : List Complaint) :
    (List.Pairwise (fun a b => newestLe a b = true) cs →
      sortByNewest cs = cs) ∧
    (∀ a b : Complaint, a.created_at = b.created_at →
      List.Sublist [a, b] cs → List.Sublist [a, b] (sortByNewest cs)) := by
  have htrans : ∀ x y z : Complaint,
      newestLe x y → newestLe y z → newestLe x z := by
    intro x y z hxy hyz
    simp [newestLe] at hxy hyz ⊢
    omega
  have htotal : ∀ x y : Complaint, newestLe x y || newestLe y x := by
    intro x y
    simp [newestLe]
    omega
  constructor
  · intro h
    exact List.mergeSort_of_sorted h
  · intro a b hab hs
    apply List.pair_sublist_mergeSort htrans htotal ?_ hs
    simp [newestLe, hab]

/-- Witness for `sortByNewest_spec`: a newest-first list with a tie
(ids 0 and 1, both at time 5) is left identical, and the tied pair keeps
its input order. -/
theorem sortByNewest_spec_witness :
    sortByNewest [probeComplaint 0 5, probeComplaint 1 5, probeComplaint 2 3]
      = [probeComplaint 0 5, probeComplaint 1 5, probeComplaint 2 3] ∧
    List.Sublist [probeComplaint 0 5, probeComplaint 1 5]
      (sortByNewest
        [probeComplaint 0 5, probeComplaint 1 5, probeComplaint 2 3]) :=
  ⟨(sortByNewest_spec
      [probeComplaint 0 5, probeComplaint 1 5, probeComplaint 2 3]).1
      (by decide),
   (sortByNewest_spec
      [probeComplaint 0 5, probeComplaint 1 5, probeComplaint 2 3]).2
      (probeComplaint 0 5) (probeComplaint 1 5) rfl (by decide)⟩

/-- Incrementing an existing entry's value leaves the entry names
unchanged. -/
theorem bumpCategory_map_fst (acc : List (Category × Nat)) (cat : Category) :
    (bumpCategory acc cat).map Prod.fst = acc.map Prod.fst := by
  induction acc with
  | nil => rfl
  | cons e rest ih =>
    unfold bumpCategory
    split
    · simp
    · simp [ih]

/-- Incrementing an entry that is present adds exactly one to the total. -/
theorem bumpCategory_sum (acc : List (Category × Nat)) (cat : Category)
    (h : cat ∈ acc.map Prod.fst) :
    ((bumpCategory acc cat).map Prod.snd).sum
      = ((acc.map Prod.snd).sum) + 1 := by
  induction acc with
  | nil => simp at h
  | cons e rest ih =>
    unfold bumpCategory
    by_cases he : e.1 = cat
    · simp [he]
      omega
    · have hcond : (e.1 == cat) = false := by simp [he]
      have hmem : cat ∈ rest.map Prod.fst := by
        rcases List.mem_cons.mp h with h1 | h1
        · exact absurd h1.symm he
        · exact h1
      simp [hcond, ih hmem]
      omega

/-- One reduce step on the names: keep them if the category is already
present, otherwise append it. -/
theorem categoryStep_map_fst (acc : List (Category × Nat)) (c : Complaint) :
    (categoryStep acc c).map Prod.fst =
      (if c.category ∈ acc.map Prod.fst then acc.map Prod.fst
       else acc.map Prod.fst ++ [c.category]) := by
  unfold categoryStep
  by_cases hmem : c.category ∈ acc.map Prod.fst
  · have hany : acc.any (fun e => e.1 == c.category) = true := by
      obtain ⟨e, he, hfst⟩ := List.mem_map.mp hmem
      exact List.any_eq_true.mpr ⟨e, he, by simp [hfst]⟩
    simp [hany, hmem, bumpCategory_map_fst]
  · have hany : acc.any (fun e => e.1 == c.category) = false := by
      rw [List.any_eq_false]
      intro e he
      simp only [beq_iff_eq]
      intro hfst
      exact hmem (List.mem_map.mpr ⟨e, he, hfst⟩)
    simp [hany, hmem]

/-- One reduce step adds exactly one to the total count. -/
theorem categoryStep_sum (acc : List (Category × Nat)) (c : Complaint) :
    ((categoryStep acc c).map Prod.snd).sum
      = ((acc.map Prod.snd).sum) + 1 := by
  unfold categoryStep
  by_cases hmem : c.category ∈ acc.map Prod.fst
  · have hany : acc.any (fun e => e.1 == c.category) = true := by
      obtain ⟨e, he, hfst⟩ := List.mem_map.mp hmem
      exact List.any_eq_true.mpr ⟨e, he, by simp [hfst]⟩
    simp [hany, bumpCategory_sum acc c.category hmem]
  · have hany : acc.any (fun e => e.1 == c.category) = false := by
      rw [List.any_eq_false]
      intro e he
      simp only [beq_iff_eq]
      intro hfst
      exact hmem (List.mem_map.mpr ⟨e, he, hfst⟩)
    simp [hany]

/-- Names of the reduce result, computed by folding the name-level step
over the category column. -/
theorem categoryData_names_aux (l : List Complaint)
    (acc : List (Category × Nat)) :
    ((l.foldl categoryStep acc).map Prod.fst) =
      (l.map (fun c => c.category)).foldl
        (fun ns x => if x ∈ ns then ns else ns ++ [x]) (acc.map Prod.fst) := by
  induction l generalizing acc with
  | nil => rfl
  | cons c rest ih =>
    simp only [List.foldl_cons, List.map_cons]
    rw [ih (categoryStep acc c), categoryStep_map_fst]

/-- The reduce result's values always total the number of complaints. -/
theorem categoryData_sum_aux (l : List Complaint)
    (acc : List (Category × Nat)) :
    ((l.foldl categoryStep acc).map Prod.snd).sum
      = ((acc.map Prod.snd).sum) + l.length := by
  induction l generalizing acc with
  | nil => simp
  | cons c rest ih =>
    simp only [List.foldl_cons, List.length_cons]
    rw [ih (categoryStep acc c), categoryStep_sum]
    omega

/-- Membership in the first-occurrence fold. -/
theorem firstOccurrence_mem_aux (lc : List Category) (ns : List Category)
    (x : Category) :
    (x ∈ lc.foldl (fun ns y => if y ∈ ns then ns else ns ++ [y]) ns) ↔
      (x ∈ ns ∨ x ∈ lc) := by
  induction lc generalizing ns with
  | nil => simp
  | cons a rest ih =>
    simp only [List.foldl_cons, List.mem_cons]
    rw [ih]
    by_cases ha : a ∈ ns
    · simp only [if_pos ha]
      constructor
      · rintro (h | h)
        · exact Or.inl h
        · exact Or.inr (Or.inr h)
      · rintro (h | h | h)
        · exact Or.inl h
        · subst h; exact Or.inl ha
        · exact Or.inr h
    · simp only [if_neg ha, List.mem_append, List.mem_singleton]
      tauto

/-- C10: the per-category aggregation lists exactly the categories that
occur in the snapshot, in order of first occurrence (zero-count
categories are omitted), and its values sum to the total number of
complaints. -/
theorem categoryData_spec (cs : List Complaint) :
    (categoryData cs).map Prod.fst
        = firstOccurrenceOrder (cs.map (fun c => c.category)) ∧
    ((categoryData cs).map Prod.snd).sum = cs.length ∧
    (∀ cat : Category,
      cat ∈ (categoryData cs).map Prod.fst ↔
        cat ∈ cs.map (fun c => c.category)) := by
  refine ⟨?_, ?_, ?_⟩
  · have h := categoryData_names_aux cs []
    simpa [categoryData, firstOccurrenceOrder] using h
  · have h := categoryData_sum_aux cs []
    simpa [categoryData] using h
  · intro cat
    have h := categoryData_names_aux cs []
    rw [categoryData, h]
    simpa using firstOccurrence_mem_aux (cs.map (fun c => c.category)) [] cat

end BCMS
